import Mathlib

/-!
# Judge–team assignment engine: shallow embedding

This file embeds the core of the hackathon judging application's
judge–team assignment engine and proves the specified properties of it.

The embedded code:
* `getNextTeamForJudge`, `assignJudgeToTeam`, `markAssignmentCompleted`,
  `getJudgeQueueStats`' per-team judge count (`distinctJudgeCount`) from
  `src/db/database.js`;
* the `/next-team` orchestration (`requestNextTeam`, `finalizeAssignment`)
  from `src/routes/scores.js`;
* the transactional locking allocator `lockTeamForJudge` and its retry
  wrapper `attemptLock` from `src/tests/judge-queue.test.js`
  (`lockTeamForJudgeTest`), the only place the repository implements the
  locking path.

The assignment store (SQLite table `judge_team_assignments`) is modelled as
a list of rows in insertion order; each database operation becomes a pure
function on that list, and an HTTP request becomes one atomic step.
Timestamps are abstract `Nat` values supplied by the caller; SQLite's
`localeCompare`/`ORDER BY` string comparison is modelled by the
lexicographic order on `String`.
-/

/-- A row of the `teams` table (the fields the engine reads). -/
structure Team where
  name : String
  tableName : String
  division : String
deriving Repr, DecidableEq

/-- A row of the `judge_team_assignments` table.  `lockedAt = none`
models SQL `NULL` in the `locked_at` column. -/
structure Assignment where
  judge : String
  team : String
  round : Nat
  completed : Bool
  lockedAt : Option Nat
deriving Repr, DecidableEq

/-- The assignment store: the rows of `judge_team_assignments` in
insertion order. -/
abbrev Store := List Assignment

/-- `SELECT COUNT(*) FROM judge_team_assignments WHERE team_name = t AND
round = r` — the `judge_count` used by `getNextTeamForJudge` and by the
locking allocator's capacity checks. -/
def roundRowCount (s : Store) (t : String) (r : Nat) : Nat :=
  (s.filter (fun a => a.team == t && a.round == r)).length

/-- `SELECT DISTINCT team_name FROM judge_team_assignments WHERE
judge_email = j` — every team the judge has ever been assigned, any
round. -/
def judgedTeamNames (s : Store) (j : String) : List String :=
  ((s.filter (fun a => a.judge == j)).map (fun a => a.team)).dedup

/-- Whether the judge already has a row for this team in the current
round (the `already_assigned` aggregate of `getNextTeamForJudge`). -/
def alreadyAssignedInRound (s : Store) (j t : String) (r : Nat) : Bool :=
  s.any (fun a => a.judge == j && a.team == t && a.round == r)

/-- `COUNT(DISTINCT jta.judge_email)` for one team and round — the
`judge_count` column produced by `getJudgeQueueStats`. -/
def distinctJudgeCount (s : Store) (t : String) (r : Nat) : Nat :=
  ((s.filter (fun a => a.team == t && a.round == r)).map (fun a => a.judge)).dedup.length

/-- Whether the judge has any assignment row for this team in any round
(the `getJudgedTeamsByJudge` membership test used by the `/next-team`
double-check). -/
def hasJudgedTeam (s : Store) (j t : String) : Bool :=
  s.any (fun a => a.judge == j && a.team == t)

/-- A candidate produced by `getNextTeamForJudge`: a team together with
its current judge count for the round. -/
structure TeamInfo where
  name : String
  tableName : String
  division : String
  judgeCount : Nat
deriving Repr, DecidableEq

/-- Lexicographic comparison of character lists by code point — the
model of the string comparison behind `localeCompare` / SQL `ORDER BY`. -/
def charListLe : List Char → List Char → Bool
  | [], _ => true
  | _ :: _, [] => false
  | c :: cs, d :: ds =>
    if c.toNat < d.toNat then true
    else if d.toNat < c.toNat then false
    else charListLe cs ds

/-- Lexicographic (code-point) string comparison. -/
def strLe (a b : String) : Bool :=
  charListLe a.data b.data


/-- The comparator of `getNextTeamForJudge`'s sort: ascending judge
count, ties broken by team name. -/
def teamLE (a b : TeamInfo) : Prop :=
  a.judgeCount < b.judgeCount ∨ (a.judgeCount = b.judgeCount ∧ strLe a.name b.name = true)

instance : DecidableRel teamLE := fun a b =>
  inferInstanceAs (Decidable (_ ∨ _))


/-- The filter of `getNextTeamForJudge`: the judge has never judged the
team, is not already assigned to it this round, and the team still needs
judges. -/
def eligibleTeam (s : Store) (j : String) (r req : Nat) (t : Team) : Bool :=
  !(judgedTeamNames s j).contains t.name &&
  !(alreadyAssignedInRound s j t.name r) &&
  decide (roundRowCount s t.name r < req)

/-- The candidate record `getNextTeamForJudge` builds for a surviving
team. -/
def mkTeamInfo (s : Store) (r : Nat) (t : Team) : TeamInfo :=
  { name := t.name, tableName := t.tableName, division := t.division,
    judgeCount := roundRowCount s t.name r }

/-- `getNextTeamForJudge` (src/db/database.js): filter the team list,
sort ascending by (judge count, name) and return the first candidate, or
`none` when no team survives. -/
def getNextTeamForJudge (teams : List Team) (s : Store) (j : String)
    (r req : Nat) : Option TeamInfo :=
  (List.insertionSort teamLE
    ((teams.filter (eligibleTeam s j r req)).map (mkTeamInfo s r))).head?

/-- `assignJudgeToTeam` (src/db/database.js): `INSERT OR IGNORE` of
`(judge, team, round, completed = 0)` — a no-op when a row with the same
`(judge, team, round)` triple already exists. -/
def assignJudgeToTeam (s : Store) (j t : String) (r : Nat) : Store :=
  if s.any (fun a => a.judge == j && a.team == t && a.round == r) then s
  else s ++ [{ judge := j, team := t, round := r, completed := false, lockedAt := none }]

/-- `markAssignmentCompleted` (src/db/database.js): `UPDATE … SET
completed = 1` on the rows matching `(judge, team, round)`. -/
def markAssignmentCompleted (s : Store) (j t : String) (r : Nat) : Store :=
  s.map (fun a =>
    if a.judge == j && a.team == t && a.round == r then
      { a with completed := true }
    else a)

/-- `every team has judge_count >= requiredJudgesPerTeam` — the
`allTeamsComplete` test of the `/next-team` route, over
`getJudgeQueueStats`' distinct-judge counts. -/
def allTeamsComplete (teams : List Team) (s : Store) (r req : Nat) : Bool :=
  teams.all (fun t => req ≤ distinctJudgeCount s t.name r)

/-- Outcome of one `/next-team` request (the four redirects of the
route). -/
inductive QueueResult where
  | assigned (t : TeamInfo)
  | allTeamsComplete
  | noMoreForYou
  | duplicateAssignment
deriving Repr, DecidableEq

/-- The tail of the `/next-team` route once the selector has produced a
candidate: the defensive `getJudgedTeamsByJudge` double-check, then
`assignJudgeToTeam`. -/
def finalizeAssignment (s : Store) (j : String) (ti : TeamInfo) (r : Nat) :
    QueueResult × Store :=
  if hasJudgedTeam s j ti.name then (.duplicateAssignment, s)
  else (.assigned ti, assignJudgeToTeam s j ti.name r)

/-- The `/next-team` route (src/routes/scores.js): select a candidate;
with no candidate, report `allTeamsComplete` or `noMoreForYou` from the
queue statistics; otherwise double-check and assign. -/
def requestNextTeam (teams : List Team) (s : Store) (j : String)
    (r req : Nat) : QueueResult × Store :=
  match getNextTeamForJudge teams s j r req with
  | none =>
      if allTeamsComplete teams s r req then (.allTeamsComplete, s)
      else (.noMoreForYou, s)
  | some ti => finalizeAssignment s j ti r

/-- Outcome of one locking-allocator transaction
(`lockTeamForJudgeTest` in src/tests/judge-queue.test.js). -/
inductive LockResult where
  | locked
  | alreadyLocked
  | teamFull
  | lockFailed
deriving Repr, DecidableEq

/-- Whether a judge other than `j` holds an active (uncompleted, locked)
claim on `(t, r)`. -/
def otherJudgeHoldsLock (s : Store) (j t : String) (r : Nat) : Bool :=
  s.any (fun a =>
    a.team == t && a.round == r && !a.completed && a.lockedAt.isSome && a.judge != j)

/-- The allocator's write: `INSERT … ON CONFLICT(judge_email, team_name,
round) DO UPDATE SET locked_at = now WHERE completed = 0 AND locked_at IS
NULL`. -/
def upsertLock (s : Store) (j t : String) (r now : Nat) : Store :=
  if s.any (fun a => a.judge == j && a.team == t && a.round == r) then
    s.map (fun a =>
      if a.judge == j && a.team == t && a.round == r && !a.completed && a.lockedAt == none then
        { a with lockedAt := some now }
      else a)
  else s ++ [{ judge := j, team := t, round := r, completed := false, lockedAt := some now }]

/-- The allocator's read-back: a row for the triple with `completed = 0`
and `locked_at` set. -/
def lockReadBack (s : Store) (j t : String) (r : Nat) : Bool :=
  s.any (fun a =>
    a.judge == j && a.team == t && a.round == r && !a.completed && a.lockedAt.isSome)

/-- One transaction of `lockTeamForJudgeTest`: capacity check, other-lock
check, capacity re-check (the sequential model makes it read the same
count as the first check), upsert, read-back. The store is returned
unchanged on every negative outcome (`ROLLBACK`, or a committed no-op
write in the `lockFailed` case). -/
def lockTeamForJudge (s : Store) (j t : String) (r req now : Nat) :
    LockResult × Store :=
  if req ≤ roundRowCount s t r then (.teamFull, s)
  else if otherJudgeHoldsLock s j t r then (.alreadyLocked, s)
  else if req ≤ roundRowCount s t r then (.teamFull, s)
  else
    let s' := upsertLock s j t r now
    if lockReadBack s' j t r then (.locked, s') else (.lockFailed, s')

/-- The jittered backoff delay the retry wrapper sleeps after a busy
attempt: `Math.random() * 50 * (attempt + 1)`. -/
def lockBusyDelay (rand : Nat → ℚ) (attempt : Nat) : ℚ :=
  rand attempt * 50 * (attempt + 1)

/-- The retry wrapper of `lockTeamForJudgeTest`: `busy a = true` means
attempt `a` hits `SQLITE_BUSY` at `BEGIN IMMEDIATE TRANSACTION`.  A busy
attempt with retries left (`remaining = retries - attempt > 0`, the
source's `attempt < retries` test) sleeps the jittered delay and
recurses; a busy attempt with the budget exhausted rejects with the
storage error; otherwise the transaction body runs.  Returns the result
together with the list of delays slept. -/
def attemptLock (busy : Nat → Bool) (rand : Nat → ℚ)
    (s : Store) (j t : String) (r req now : Nat) :
    Nat → Nat → Except String (LockResult × Store) × List ℚ
  | remaining, attempt =>
    if busy attempt then
      match remaining with
      | 0 => (.error "SQLITE_BUSY", [])
      | remaining' + 1 =>
          let (res, ds) := attemptLock busy rand s j t r req now remaining' (attempt + 1)
          (res, lockBusyDelay rand attempt :: ds)
    else (.ok (lockTeamForJudge s j t r req now), [])

/-- `lockTeamForJudgeTest` with its default budget `retries = 10`,
starting at attempt 0. -/
def lockTeamForJudgeWithRetry (busy : Nat → Bool) (rand : Nat → ℚ)
    (s : Store) (j t : String) (r req now : Nat) :
    Except String (LockResult × Store) × List ℚ :=
  attemptLock busy rand s j t r req now 10 0

/-- One engine operation, as dispatched by the web layer. -/
inductive Op where
  | request (j : String) (r : Nat)
  | lock (j t : String) (r now : Nat)
  | markDone (j t : String) (r : Nat)
deriving Repr, DecidableEq

/-- Apply one engine operation to the store. -/
def applyOp (teams : List Team) (req : Nat) (s : Store) : Op → Store
  | .request j r => (requestNextTeam teams s j r req).2
  | .lock j t r now => (lockTeamForJudge s j t r req now).2
  | .markDone j t r => markAssignmentCompleted s j t r

/-- Run a sequence of engine operations from the empty store. -/
def runOps (teams : List Team) (req : Nat) (ops : List Op) : Store :=
  ops.foldl (applyOp teams req) []

/-- Run a sequence of `/next-team` requests (judge, round) from the empty
store. -/
def runRequests (teams : List Team) (req : Nat)
    (calls : List (String × Nat)) : Store :=
  calls.foldl (fun s c => (requestNextTeam teams s c.1 c.2 req).2) []

/-- `n` consecutive `/next-team` requests by one judge in one round,
returning the result trace and the final store. -/
def iterateRequests (teams : List Team) (req : Nat) (j : String) (r : Nat) :
    Nat → Store → List QueueResult × Store
  | 0, s => ([], s)
  | n + 1, s =>
      let (res, s') := requestNextTeam teams s j r req
      let (rs, s'') := iterateRequests teams req j r n s'
      (res :: rs, s'')

/-- The assignment row the request path inserts for a judge and team. -/
def rowOf (j : String) (r : Nat) (t : Team) : Assignment :=
  { judge := j, team := t.name, round := r, completed := false, lockedAt := none }

/-- Rows a single judge's in-order assignments produce: one uncompleted,
unlocked row per team. -/
def rowsOf (j : String) (r : Nat) (ts : List Team) : Store :=
  ts.map (rowOf j r)

/-- Rows held by a fixed (judge, team) pair across all rounds — the
quantity bounded by Invariant B. -/
def pairRowCount (s : Store) (j t : String) : Nat :=
  (s.filter (fun a => a.judge == j && a.team == t)).length

/-- Spec-side eligibility of a team for a judge: never assigned to the
judge in any round, not assigned to the judge in the current round, and
current-round assignment count strictly below required-judges-per-team. -/
def EligibleP (s : Store) (j : String) (r req : Nat) (t : Team) : Prop :=
  (∀ a ∈ s, ¬(a.judge = j ∧ a.team = t.name)) ∧
  (∀ a ∈ s, ¬(a.judge = j ∧ a.team = t.name ∧ a.round = r)) ∧
  roundRowCount s t.name r < req

instance (s : Store) (j : String) (r req : Nat) (t : Team) :
    Decidable (EligibleP s j r req t) :=
  inferInstanceAs (Decidable (_ ∧ _ ∧ _))

/-- Strict lexical order on strings (used to state that a team list is
sorted by name with distinct names, as `ORDER BY name` plus the UNIQUE
constraint provide). -/
def strLtP (a b : String) : Prop := strLe a b = true ∧ a ≠ b

instance : DecidableRel strLtP := fun a b =>
  inferInstanceAs (Decidable (_ ∧ _))

/-- The candidate record for a team no one has judged yet. -/
def infoOf (t : Team) : TeamInfo :=
  { name := t.name, tableName := t.tableName, division := t.division, judgeCount := 0 }

/-- A two-team registry used to exercise the selector on concrete data. -/
def wTeamA : Team := { name := "Team 1", tableName := "T1", division := "D" }

/-- Second concrete team. -/
def wTeamB : Team := { name := "Team 2", tableName := "T2", division := "D" }

/-- A store in which judge "j1" has already judged "Team 1". -/
def wStore : Store :=
  [{ judge := "j1", team := "Team 1", round := 1, completed := true, lockedAt := none }]

theorem charListLe_refl : ∀ xs, charListLe xs xs = true
  | [] => rfl
  | _ :: xs => by simp [charListLe, charListLe_refl xs]

theorem charListLe_total : ∀ xs ys, charListLe xs ys = true ∨ charListLe ys xs = true
  | [], _ => Or.inl rfl
  | _ :: _, [] => Or.inr rfl
  | c :: cs, d :: ds => by
    rcases Nat.lt_trichotomy c.toNat d.toNat with h | h | h
    · exact Or.inl (by simp [charListLe, h])
    · rcases charListLe_total cs ds with h' | h' <;>
        [exact Or.inl (by simp [charListLe, h, h']);
         exact Or.inr (by simp [charListLe, h, h'])]
    · exact Or.inr (by simp [charListLe, h])

theorem charListLe_trans : ∀ xs ys zs, charListLe xs ys = true →
    charListLe ys zs = true → charListLe xs zs = true
  | [], _, _, _, _ => rfl
  | _ :: _, [], _, h, _ => by simp [charListLe] at h
  | _ :: _, _ :: _, [], _, h => by simp [charListLe] at h
  | c :: cs, d :: ds, e :: es, h₁, h₂ => by
    simp only [charListLe] at h₁ h₂ ⊢
    by_cases hcd : c.toNat < d.toNat
    · by_cases hde : d.toNat < e.toNat
      · simp [Nat.lt_trans hcd hde]
      · by_cases hed : e.toNat < d.toNat
        · simp [hde, hed] at h₂
        · have hde' : d.toNat = e.toNat :=
            Nat.le_antisymm (Nat.le_of_not_lt hed) (Nat.le_of_not_lt hde)
          simp [hde' ▸ hcd]
    · by_cases hdc : d.toNat < c.toNat
      · simp [hcd, hdc] at h₁
      · have hcd' : c.toNat = d.toNat :=
          Nat.le_antisymm (Nat.le_of_not_lt hdc) (Nat.le_of_not_lt hcd)
        simp [hcd, hdc] at h₁
        by_cases hde : d.toNat < e.toNat
        · simp [hcd' ▸ hde]
        · by_cases hed : e.toNat < d.toNat
          · simp [hde, hed] at h₂
          · simp [hde, hed] at h₂
            have h3 : ¬ c.toNat < e.toNat := by rw [hcd']; exact hde
            have h4 : ¬ e.toNat < c.toNat := by
              intro h'; exact hed (by rw [← hcd']; exact h')
            simp only [h3, h4, if_false]
            exact charListLe_trans cs ds es h₁ h₂

theorem charListLe_antisymm : ∀ xs ys, charListLe xs ys = true →
    charListLe ys xs = true → xs = ys
  | [], [], _, _ => rfl
  | [], _ :: _, _, h => by simp [charListLe] at h
  | _ :: _, [], h, _ => by simp [charListLe] at h
  | c :: cs, d :: ds, h₁, h₂ => by
    simp only [charListLe] at h₁ h₂
    rcases Nat.lt_trichotomy c.toNat d.toNat with hcd | hcd | hcd
    · simp [Nat.lt_asymm hcd, hcd, Nat.lt_irrefl] at h₂
    · have hc : c = d := Char.eq_of_val_eq (UInt32.ext hcd)
      subst hc
      simp [Nat.lt_irrefl] at h₁ h₂
      exact congrArg (c :: ·) (charListLe_antisymm cs ds h₁ h₂)
    · simp [Nat.lt_asymm hcd, hcd, Nat.lt_irrefl] at h₁

theorem strLe_refl (a : String) : strLe a a = true :=
  charListLe_refl _

theorem strLe_total (a b : String) : strLe a b = true ∨ strLe b a = true :=
  charListLe_total _ _

theorem strLe_trans {a b c : String} (h₁ : strLe a b = true)
    (h₂ : strLe b c = true) : strLe a c = true :=
  charListLe_trans _ _ _ h₁ h₂

theorem strLe_antisymm {a b : String} (h₁ : strLe a b = true)
    (h₂ : strLe b a = true) : a = b := by
  cases a; cases b
  exact congrArg String.mk (charListLe_antisymm _ _ h₁ h₂)

theorem teamLE_total (a b : TeamInfo) : teamLE a b ∨ teamLE b a := by
  rcases Nat.lt_trichotomy a.judgeCount b.judgeCount with h | h | h
  · exact Or.inl (Or.inl h)
  · rcases strLe_total a.name b.name with h' | h'
    · exact Or.inl (Or.inr ⟨h, h'⟩)
    · exact Or.inr (Or.inr ⟨h.symm, h'⟩)
  · exact Or.inr (Or.inl h)

theorem teamLE_trans {a b c : TeamInfo} (hab : teamLE a b) (hbc : teamLE b c) :
    teamLE a c := by
  rcases hab with hab | ⟨hab, hab'⟩
  · rcases hbc with hbc | ⟨hbc, _⟩
    · exact Or.inl (hab.trans hbc)
    · exact Or.inl (hbc ▸ hab)
  · rcases hbc with hbc | ⟨hbc, hbc'⟩
    · exact Or.inl (hab ▸ hbc)
    · exact Or.inr ⟨hab.trans hbc, strLe_trans hab' hbc'⟩

theorem teamLE_refl (a : TeamInfo) : teamLE a a :=
  Or.inr ⟨rfl, strLe_refl _⟩

theorem mem_judgedTeamNames {s : Store} {j x : String} :
    x ∈ judgedTeamNames s j ↔ ∃ a ∈ s, a.judge = j ∧ a.team = x := by
  simp [judgedTeamNames, List.mem_dedup, List.mem_map, List.mem_filter]
  constructor
  · rintro ⟨a, ⟨ha, hj⟩, ht⟩
    exact ⟨a, ha, hj, ht⟩
  · rintro ⟨a, ha, hj, ht⟩
    exact ⟨a, ⟨ha, hj⟩, ht⟩

theorem hasJudgedTeam_eq_false {s : Store} {j t : String} :
    hasJudgedTeam s j t = false ↔ ∀ a ∈ s, ¬(a.judge = j ∧ a.team = t) := by
  simp [hasJudgedTeam, List.any_eq_false]

theorem hasJudgedTeam_eq_true {s : Store} {j t : String} :
    hasJudgedTeam s j t = true ↔ ∃ a ∈ s, a.judge = j ∧ a.team = t := by
  simp [hasJudgedTeam, List.any_eq_true]

theorem pairRowCount_eq_zero {s : Store} {j t : String}
    (h : hasJudgedTeam s j t = false) : pairRowCount s j t = 0 := by
  rw [hasJudgedTeam_eq_false] at h
  simp only [pairRowCount, List.length_eq_zero, List.filter_eq_nil]
  intro a ha
  simp only [Bool.and_eq_true, beq_iff_eq]
  exact fun hc => h a ha ⟨hc.1, hc.2⟩

theorem pairRowCount_append (s : Store) (b : Assignment) (j t : String) :
    pairRowCount (s ++ [b]) j t =
      pairRowCount s j t + (if b.judge = j ∧ b.team = t then 1 else 0) := by
  simp only [pairRowCount, List.filter_append]
  by_cases h : b.judge = j ∧ b.team = t
  · simp [h]
  · have : (b.judge == j && b.team == t) = false := by
      simp only [Bool.and_eq_true, beq_iff_eq] at *
      by_cases h1 : b.judge = j <;> simp_all
    simp [this, h]

theorem roundRowCount_append (s : Store) (b : Assignment) (t : String) (r : Nat) :
    roundRowCount (s ++ [b]) t r =
      roundRowCount s t r + (if b.team = t ∧ b.round = r then 1 else 0) := by
  simp only [roundRowCount, List.filter_append]
  by_cases h : b.team = t ∧ b.round = r
  · simp [h]
  · have : (b.team == t && b.round == r) = false := by
      simp only [Bool.and_eq_true, beq_iff_eq] at *
      by_cases h1 : b.team = t <;> simp_all
    simp [this, h]

theorem roundRowCount_map_preserving {f : Assignment → Assignment}
    (hf : ∀ a, (f a).team = a.team ∧ (f a).round = a.round)
    (s : Store) (t : String) (r : Nat) :
    roundRowCount (s.map f) t r = roundRowCount s t r := by
  induction s with
  | nil => rfl
  | cons a s ih =>
    simp only [roundRowCount, List.map_cons, List.filter_cons] at *
    have h1 := (hf a).1
    have h2 := (hf a).2
    by_cases hc : (a.team == t && a.round == r) = true
    · have : ((f a).team == t && (f a).round == r) = true := by
        rw [h1, h2]; exact hc
      simp [hc, this, ih]
    · have : ((f a).team == t && (f a).round == r) = false := by
        rw [h1, h2]; exact Bool.eq_false_iff.mpr hc
      simp [Bool.eq_false_iff.mpr hc, this, ih]

theorem getNextTeamForJudge_some {teams : List Team} {s : Store} {j : String}
    {r req : Nat} {ti : TeamInfo}
    (h : getNextTeamForJudge teams s j r req = some ti) :
    ∃ t ∈ teams, eligibleTeam s j r req t = true ∧ ti = mkTeamInfo s r t := by
  unfold getNextTeamForJudge at h
  have hmem : ti ∈ List.insertionSort teamLE
      ((teams.filter (eligibleTeam s j r req)).map (mkTeamInfo s r)) :=
    List.mem_of_mem_head? h
  rw [List.mem_insertionSort] at hmem
  rcases List.mem_map.mp hmem with ⟨t, ht, hti⟩
  rcases List.mem_filter.mp ht with ⟨htm, helig⟩
  exact ⟨t, htm, helig, hti.symm⟩

theorem eligibleTeam_spec {s : Store} {j : String} {r req : Nat} {t : Team}
    (h : eligibleTeam s j r req t = true) :
    (∀ a ∈ s, ¬(a.judge = j ∧ a.team = t.name)) ∧ roundRowCount s t.name r < req := by
  simp only [eligibleTeam, Bool.and_eq_true, Bool.not_eq_true', decide_eq_true_eq] at h
  obtain ⟨⟨hjudged, _⟩, hcount⟩ := h
  refine ⟨?_, hcount⟩
  intro a ha hc
  have : t.name ∈ judgedTeamNames s j := mem_judgedTeamNames.mpr ⟨a, ha, hc.1, hc.2⟩
  have := List.elem_eq_true_of_mem this
  simp only [List.contains] at hjudged
  rw [this] at hjudged
  cases hjudged

theorem getNextTeamForJudge_some_count_lt {teams : List Team} {s : Store}
    {j : String} {r req : Nat} {ti : TeamInfo}
    (h : getNextTeamForJudge teams s j r req = some ti) :
    roundRowCount s ti.name r < req := by
  rcases getNextTeamForJudge_some h with ⟨t, _, helig, hti⟩
  have := (eligibleTeam_spec helig).2
  rw [hti]
  exact this

theorem getNextTeamForJudge_some_not_judged {teams : List Team} {s : Store}
    {j : String} {r req : Nat} {ti : TeamInfo}
    (h : getNextTeamForJudge teams s j r req = some ti) :
    hasJudgedTeam s j ti.name = false := by
  rcases getNextTeamForJudge_some h with ⟨t, _, helig, hti⟩
  rw [hasJudgedTeam_eq_false, hti]
  exact (eligibleTeam_spec helig).1

theorem markAssignmentCompleted_idem (s : Store) (j t : String) (r : Nat) :
    markAssignmentCompleted (markAssignmentCompleted s j t r) j t r =
      markAssignmentCompleted s j t r := by
  simp only [markAssignmentCompleted, List.map_map]
  apply List.map_congr_left
  intro a _
  by_cases h : (a.judge == j && a.team == t && a.round == r) = true
  · simp [Function.comp, h]
  · simp [Function.comp, Bool.eq_false_iff.mpr h]

/-- Claim C7: `markAssignmentCompleted` is idempotent — running it a
second time on the same `(judge, team, round)` leaves the store exactly as
after the first run, it creates no rows (the length is preserved), every
row matching the triple ends with its completed flag set, and the second
call returns normally (the operation is a total function; the `UPDATE`
re-validates no capacity, touching only the matched rows' completed
flag). -/
theorem c7_markCompleted_idempotent (s : Store) (j t : String) (r : Nat) :
    markAssignmentCompleted (markAssignmentCompleted s j t r) j t r =
      markAssignmentCompleted s j t r ∧
    (markAssignmentCompleted s j t r).length = s.length ∧
    ((markAssignmentCompleted s j t r).filter
      (fun a => a.judge == j && a.team == t && a.round == r)).all
        (fun a => a.completed) = true := by
  refine ⟨markAssignmentCompleted_idem s j t r, by
    simp [markAssignmentCompleted], ?_⟩
  rw [List.all_eq_true]
  intro a ha
  rcases List.mem_filter.mp ha with ⟨hmem, hcond⟩
  rcases List.mem_map.mp hmem with ⟨b, _, hb⟩
  by_cases h : (b.judge == j && b.team == t && b.round == r) = true
  · rw [← hb]
    simp [h]
  · rw [← hb] at hcond
    simp only [Bool.eq_false_iff.mpr h, if_false] at hcond
    rw [← hb]
    simp only [Bool.eq_false_iff.mpr h, if_false]
    exact absurd hcond (by simp [Bool.eq_false_iff.mpr h])

/-- Claim C8: the `/next-team` orchestration performs a defensive
double-check before finalizing — if the judge already holds a completed
assignment for the candidate team in any round, `finalizeAssignment`
(the code path the route runs after the selector produced the candidate)
refuses with the explicit duplicate-assignment error and leaves the
store untouched. -/
theorem c8_duplicate_double_check (s : Store) (j : String) (ti : TeamInfo)
    (r : Nat) (h : ∃ a ∈ s, a.judge = j ∧ a.team = ti.name ∧ a.completed = true) :
    finalizeAssignment s j ti r = (.duplicateAssignment, s) := by
  rcases h with ⟨a, ha, hj, ht, _⟩
  have : hasJudgedTeam s j ti.name = true :=
    hasJudgedTeam_eq_true.mpr ⟨a, ha, hj, ht⟩
  simp [finalizeAssignment, this]

theorem c8_duplicate_double_check_witness :
    finalizeAssignment
      [{ judge := "j1", team := "Team 1", round := 1, completed := true, lockedAt := none }]
      "j1" { name := "Team 1", tableName := "Table1", division := "D", judgeCount := 0 } 2 =
    (.duplicateAssignment,
      [{ judge := "j1", team := "Team 1", round := 1, completed := true, lockedAt := none }]) :=
  c8_duplicate_double_check _ _ _ _
    ⟨_, List.mem_singleton.mpr rfl, rfl, rfl, rfl⟩

/-- Claim C10: calling `assignJudgeToTeam` for a `(judge, team, round)`
triple that already has a row is a successful no-op: the `INSERT OR
IGNORE` returns normally and the store — in particular an existing
`completed = 1` row — is entirely unchanged, and no second row is
created. -/
theorem c10_assign_existing_noop (s : Store) (j t : String) (r : Nat)
    (h : ∃ a ∈ s, a.judge = j ∧ a.team = t ∧ a.round = r) :
    assignJudgeToTeam s j t r = s := by
  rcases h with ⟨a, ha, hj, ht, hr⟩
  have : s.any (fun a => a.judge == j && a.team == t && a.round == r) = true := by
    rw [List.any_eq_true]
    exact ⟨a, ha, by simp [hj, ht, hr]⟩
  simp [assignJudgeToTeam, this]

theorem c10_assign_existing_noop_witness :
    assignJudgeToTeam
      [{ judge := "j1", team := "Team 1", round := 1, completed := true, lockedAt := none }]
      "j1" "Team 1" 1 =
    [{ judge := "j1", team := "Team 1", round := 1, completed := true, lockedAt := none }] :=
  c10_assign_existing_noop _ _ _ _
    ⟨_, List.mem_singleton.mpr rfl, rfl, rfl, rfl⟩

theorem roundRowCount_request_le (teams : List Team) (req : Nat) (s : Store)
    (j : String) (r : Nat) (t' : String) (r' : Nat)
    (h : roundRowCount s t' r' ≤ req) :
    roundRowCount (requestNextTeam teams s j r req).2 t' r' ≤ req := by
  unfold requestNextTeam
  cases hsel : getNextTeamForJudge teams s j r req with
  | none =>
    by_cases hc : allTeamsComplete teams s r req <;> simp [hc, h]
  | some ti =>
    simp only [finalizeAssignment]
    by_cases hj : hasJudgedTeam s j ti.name
    · simp [hj, h]
    · simp only [Bool.eq_false_iff.mpr hj, Bool.false_eq_true, if_false]
      unfold assignJudgeToTeam
      by_cases hex : s.any (fun a => a.judge == j && a.team == ti.name && a.round == r) = true
      · simp [hex, h]
      · simp only [Bool.eq_false_iff.mpr hex, Bool.false_eq_true, if_false]
        rw [roundRowCount_append]
        split
        · next hcond =>
            have h1 : ti.name = t' := hcond.1
            have h2 : r = r' := hcond.2
            have hlt : roundRowCount s t' r' < req := by
              rw [← h1, ← h2]; exact getNextTeamForJudge_some_count_lt hsel
            omega
        · omega

theorem roundRowCount_upsert_le (s : Store) (j t : String) (r now : Nat)
    (req : Nat) (t' : String) (r' : Nat)
    (hlt : roundRowCount s t r < req) (h : roundRowCount s t' r' ≤ req) :
    roundRowCount (upsertLock s j t r now) t' r' ≤ req := by
  unfold upsertLock
  by_cases hex : s.any (fun a => a.judge == j && a.team == t && a.round == r) = true
  · simp only [hex, if_true]
    rw [roundRowCount_map_preserving (fun a => by split <;> simp)]
    exact h
  · simp only [Bool.eq_false_iff.mpr hex, Bool.false_eq_true, if_false]
    rw [roundRowCount_append]
    split
    · next hcond =>
        have h1 : t = t' := hcond.1
        have h2 : r = r' := hcond.2
        rw [← h1, ← h2]
        omega
    · omega

theorem roundRowCount_lock_le (s : Store) (j t : String) (r req now : Nat)
    (t' : String) (r' : Nat) (h : roundRowCount s t' r' ≤ req) :
    roundRowCount (lockTeamForJudge s j t r req now).2 t' r' ≤ req := by
  unfold lockTeamForJudge
  by_cases h1 : req ≤ roundRowCount s t r
  · simp [h1, h]
  · simp only [h1, if_false]
    by_cases h2 : otherJudgeHoldsLock s j t r
    · simp [h2, h]
    · simp only [Bool.eq_false_iff.mpr h2, Bool.false_eq_true, if_false, h1]
      by_cases h3 : lockReadBack (upsertLock s j t r now) j t r <;>
        simp [h3, roundRowCount_upsert_le s j t r now req t' r' (Nat.lt_of_not_le h1) h]

theorem roundRowCount_mark (s : Store) (j t : String) (r : Nat)
    (t' : String) (r' : Nat) :
    roundRowCount (markAssignmentCompleted s j t r) t' r' = roundRowCount s t' r' := by
  unfold markAssignmentCompleted
  exact roundRowCount_map_preserving (fun a => by split <;> simp) s t' r'

/-- Claim C1: for every `(team, round)` pair, after any sequence of
engine operations (`/next-team` requests, lock attempts and
mark-completed calls) starting from the empty store, the number of
assignment rows for that team and round — completed, incomplete and
locked rows alike — never exceeds the configured
required-judges-per-team: each inserting path (the selector's capacity
filter on the request path, the allocator's capacity checks on the lock
path) enforces the bound before writing, and mark-completed never adds
rows. -/
theorem c1_capacity_invariant (teams : List Team) (req : Nat)
    (ops : List Op) (t : String) (r : Nat) :
    roundRowCount (runOps teams req ops) t r ≤ req := by
  suffices h : ∀ s : Store, (∀ t' r', roundRowCount s t' r' ≤ req) →
      ∀ t' r', roundRowCount (ops.foldl (applyOp teams req) s) t' r' ≤ req by
    exact h [] (fun t' r' => by simp [roundRowCount]) t r
  induction ops with
  | nil => exact fun s hs => hs
  | cons op ops ih =>
    intro s hs
    refine ih (applyOp teams req s op) ?_
    intro t' r'
    cases op with
    | request j r0 => exact roundRowCount_request_le teams req s j r0 t' r' (hs t' r')
    | lock j t0 r0 now => exact roundRowCount_lock_le s j t0 r0 req now t' r' (hs t' r')
    | markDone j t0 r0 => rw [applyOp, roundRowCount_mark]; exact hs t' r'

theorem pairRowCount_request_le (teams : List Team) (req : Nat) (s : Store)
    (j0 : String) (r0 : Nat) (j t : String) (h : pairRowCount s j t ≤ 1) :
    pairRowCount (requestNextTeam teams s j0 r0 req).2 j t ≤ 1 := by
  unfold requestNextTeam
  cases hsel : getNextTeamForJudge teams s j0 r0 req with
  | none =>
    by_cases hc : allTeamsComplete teams s r0 req <;> simp [hc, h]
  | some ti =>
    simp only [finalizeAssignment]
    by_cases hj : hasJudgedTeam s j0 ti.name
    · simp [hj, h]
    · simp only [Bool.eq_false_iff.mpr hj, Bool.false_eq_true, if_false]
      unfold assignJudgeToTeam
      by_cases hex : s.any (fun a => a.judge == j0 && a.team == ti.name && a.round == r0) = true
      · simp [hex, h]
      · simp only [Bool.eq_false_iff.mpr hex, Bool.false_eq_true, if_false]
        rw [pairRowCount_append]
        split
        · next hcond =>
            have h1 : j0 = j := hcond.1
            have h2 : ti.name = t := hcond.2
            have h0 : pairRowCount s j0 ti.name = 0 :=
              pairRowCount_eq_zero (Bool.eq_false_iff.mpr hj)
            rw [← h1, ← h2, h0]
        · omega

/-- Claim C2: for every judge and team, across all rounds combined, the
store holds at most one assignment row for that `(judge, team)` pair
after any sequence of `/next-team` requests from the empty store — the
candidate selector permanently excludes every team the judge has ever
been assigned in any round (and the route's double-check re-verifies it),
so a judge is never assigned the same team twice. -/
theorem c2_judge_team_once (teams : List Team) (req : Nat)
    (calls : List (String × Nat)) (j t : String) :
    pairRowCount (runRequests teams req calls) j t ≤ 1 := by
  suffices h : ∀ s : Store, (∀ j' t', pairRowCount s j' t' ≤ 1) →
      ∀ j' t', pairRowCount
        (calls.foldl (fun s c => (requestNextTeam teams s c.1 c.2 req).2) s) j' t' ≤ 1 by
    exact h [] (fun j' t' => by simp [pairRowCount]) j t
  induction calls with
  | nil => exact fun s hs => hs
  | cons c calls ih =>
    intro s hs
    refine ih (requestNextTeam teams s c.1 c.2 req).2 ?_
    intro j' t'
    exact pairRowCount_request_le teams req s c.1 c.2 j' t' (hs j' t')

/-- Claim C4: whenever the candidate selector returns no candidate for a
judge and round, the `/next-team` route answers `allTeamsComplete` if and
only if every team in the round already has at least
required-judges-per-team distinct assigned judges (per the queue
statistics), and answers `noMoreForYou` otherwise; the store is left
unchanged either way. -/
theorem c4_no_candidate_outcome (teams : List Team) (s : Store) (j : String)
    (r req : Nat) (hsel : getNextTeamForJudge teams s j r req = none) :
    ((requestNextTeam teams s j r req).1 = .allTeamsComplete ↔
      ∀ t ∈ teams, req ≤ distinctJudgeCount s t.name r) ∧
    ((requestNextTeam teams s j r req).1 = .noMoreForYou ↔
      ¬ ∀ t ∈ teams, req ≤ distinctJudgeCount s t.name r) ∧
    (requestNextTeam teams s j r req).2 = s := by
  have hall : allTeamsComplete teams s r req = true ↔
      ∀ t ∈ teams, req ≤ distinctJudgeCount s t.name r := by
    simp [allTeamsComplete, List.all_eq_true]
  by_cases hc : allTeamsComplete teams s r req
  · have e : requestNextTeam teams s j r req = (.allTeamsComplete, s) := by
      unfold requestNextTeam
      rw [hsel, if_pos hc]
    rw [e]
    refine ⟨⟨fun _ => hall.mp hc, fun _ => rfl⟩, ⟨?_, ?_⟩, rfl⟩
    · intro h
      cases h
    · intro hn
      exact absurd (hall.mp hc) hn
  · have e : requestNextTeam teams s j r req = (.noMoreForYou, s) := by
      unfold requestNextTeam
      rw [hsel, if_neg hc]
    rw [e]
    refine ⟨⟨?_, ?_⟩, ⟨fun _ h => hc (hall.mpr h), fun _ => rfl⟩, rfl⟩
    · intro h
      cases h
    · intro h
      exact absurd (hall.mpr h) hc

/-- Claim C4 witness: the spec's scenario — 1 team, 1 judge, required
2.  After the judge's first request assigned the team, the selector has
no candidate, the team has only 1 of its 2 required judges, and the
second request answers `noMoreForYou` (not `allTeamsComplete`). -/
theorem c4_no_candidate_outcome_witness :
    (requestNextTeam [{ name := "Team 1", tableName := "Table1", division := "D" }]
      (requestNextTeam [{ name := "Team 1", tableName := "Table1", division := "D" }]
        [] "judge1" 1 2).2 "judge1" 1 2).1 = .noMoreForYou := by
  have h := c4_no_candidate_outcome
    [{ name := "Team 1", tableName := "Table1", division := "D" }]
    (requestNextTeam [{ name := "Team 1", tableName := "Table1", division := "D" }]
      [] "judge1" 1 2).2 "judge1" 1 2 (by decide)
  exact (h.2.1).mpr (by decide)

theorem otherJudgeHoldsLock_eq_true {s : Store} {j t : String} {r : Nat} :
    otherJudgeHoldsLock s j t r = true ↔
      ∃ a ∈ s, a.team = t ∧ a.round = r ∧ a.completed = false ∧
        a.lockedAt.isSome = true ∧ a.judge ≠ j := by
  rw [otherJudgeHoldsLock, List.any_eq_true]
  constructor
  · rintro ⟨a, ha, hc⟩
    simp only [Bool.and_eq_true, beq_iff_eq, Bool.not_eq_true', bne_iff_ne] at hc
    exact ⟨a, ha, hc.1.1.1.1, hc.1.1.1.2, hc.1.1.2, hc.1.2, hc.2⟩
  · rintro ⟨a, ha, h1, h2, h3, h4, h5⟩
    refine ⟨a, ha, ?_⟩
    simp only [Bool.and_eq_true, beq_iff_eq, Bool.not_eq_true', bne_iff_ne]
    exact ⟨⟨⟨⟨h1, h2⟩, h3⟩, h4⟩, h5⟩

theorem upsertLock_all_completed {s : Store} {j t : String} {r : Nat} (now : Nat)
    (hex : ∃ a ∈ s, a.judge = j ∧ a.team = t ∧ a.round = r)
    (hall : ∀ a ∈ s, a.judge = j ∧ a.team = t ∧ a.round = r → a.completed = true) :
    upsertLock s j t r now = s := by
  rcases hex with ⟨a₀, ha₀, hc₀⟩
  have hany : s.any (fun a => a.judge == j && a.team == t && a.round == r) = true := by
    rw [List.any_eq_true]
    exact ⟨a₀, ha₀, by simp [hc₀.1, hc₀.2.1, hc₀.2.2]⟩
  unfold upsertLock
  rw [if_pos hany]
  have hid : ∀ a ∈ s,
      (if a.judge == j && a.team == t && a.round == r && !a.completed && a.lockedAt == none
       then { a with lockedAt := some now } else a) = a := by
    intro a ha
    split
    · next hcond =>
        exfalso
        simp only [Bool.and_eq_true, beq_iff_eq, Bool.not_eq_true'] at hcond
        obtain ⟨⟨⟨⟨hj, ht⟩, hr⟩, hcf⟩, _⟩ := hcond
        exact absurd (hall a ha ⟨hj, ht, hr⟩) (by simp [hcf])
    · rfl
  rw [List.map_congr_left hid, List.map_id']

theorem lockReadBack_upsert_success {s : Store} {j t : String} {r : Nat} (now : Nat)
    (h : ¬ ((∃ a ∈ s, a.judge = j ∧ a.team = t ∧ a.round = r) ∧
         ∀ a ∈ s, a.judge = j ∧ a.team = t ∧ a.round = r → a.completed = true)) :
    lockReadBack (upsertLock s j t r now) j t r = true := by
  unfold upsertLock
  by_cases hany : s.any (fun a => a.judge == j && a.team == t && a.round == r) = true
  · rw [if_pos hany]
    rw [List.any_eq_true] at hany
    rcases hany with ⟨a₀, ha₀, hc₀⟩
    simp only [Bool.and_eq_true, beq_iff_eq] at hc₀
    have hex : ∃ a ∈ s, a.judge = j ∧ a.team = t ∧ a.round = r :=
      ⟨a₀, ha₀, hc₀.1.1, hc₀.1.2, hc₀.2⟩
    have : ∃ a ∈ s, (a.judge = j ∧ a.team = t ∧ a.round = r) ∧ a.completed = false := by
      by_contra hno
      push_neg at hno
      exact h ⟨hex, fun a ha hm => by
        cases hc : a.completed with
        | false => exact absurd hc (hno a ha hm)
        | true => rfl⟩
    rcases this with ⟨a₁, ha₁, hm₁, hcomp₁⟩
    rw [lockReadBack, List.any_eq_true]
    refine ⟨if a₁.judge == j && a₁.team == t && a₁.round == r && !a₁.completed && a₁.lockedAt == none
            then { a₁ with lockedAt := some now } else a₁, List.mem_map.mpr ⟨a₁, ha₁, rfl⟩, ?_⟩
    by_cases hnone : a₁.lockedAt = none
    · simp [hm₁.1, hm₁.2.1, hm₁.2.2, hcomp₁, hnone]
    · have hsome : a₁.lockedAt.isSome = true := Option.ne_none_iff_isSome.mp hnone
      simp [hm₁.1, hm₁.2.1, hm₁.2.2, hcomp₁, hnone, hsome]
  · rw [if_neg hany]
    rw [lockReadBack, List.any_eq_true]
    exact ⟨_, List.mem_append_right _ (List.mem_singleton.mpr rfl), by simp⟩

/-- Claim C5: one locking-allocator transaction performs its checks in
the source's order — capacity first (TeamFull even when another judge
also holds a lock), then the other-judge lock check, then the capacity
re-count (which in this sequential model reads the same count as check 1
and so cannot newly fail), then the insert-or-update of the
`(judge, team, round)` row with a lock timestamp and `completed = 0`,
then the read-back that yields LockFailed when no lock row for the judge
is present (exactly when the triple already exists only as completed
rows, making the guarded upsert a no-op).  Every negative outcome leaves
the store unchanged. -/
theorem c5_lock_check_order (s : Store) (j t : String) (r req now : Nat) :
    (req ≤ roundRowCount s t r →
      lockTeamForJudge s j t r req now = (.teamFull, s)) ∧
    (roundRowCount s t r < req →
      (∃ a ∈ s, a.team = t ∧ a.round = r ∧ a.completed = false ∧
        a.lockedAt.isSome = true ∧ a.judge ≠ j) →
      lockTeamForJudge s j t r req now = (.alreadyLocked, s)) ∧
    (roundRowCount s t r < req →
      ¬ (∃ a ∈ s, a.team = t ∧ a.round = r ∧ a.completed = false ∧
          a.lockedAt.isSome = true ∧ a.judge ≠ j) →
      (((∃ a ∈ s, a.judge = j ∧ a.team = t ∧ a.round = r) ∧
          (∀ a ∈ s, a.judge = j ∧ a.team = t ∧ a.round = r → a.completed = true)) →
        lockTeamForJudge s j t r req now = (.lockFailed, s)) ∧
      (¬ ((∃ a ∈ s, a.judge = j ∧ a.team = t ∧ a.round = r) ∧
          (∀ a ∈ s, a.judge = j ∧ a.team = t ∧ a.round = r → a.completed = true)) →
        lockTeamForJudge s j t r req now = (.locked, upsertLock s j t r now) ∧
        ∃ a ∈ upsertLock s j t r now, a.judge = j ∧ a.team = t ∧ a.round = r ∧
          a.completed = false ∧ a.lockedAt.isSome = true)) := by
  refine ⟨fun h1 => ?_, fun h1 h2 => ?_, fun h1 h2 => ⟨fun h3 => ?_, fun h3 => ?_⟩⟩
  · unfold lockTeamForJudge
    rw [if_pos h1]
  · unfold lockTeamForJudge
    rw [if_neg (Nat.not_le_of_lt h1), if_pos (otherJudgeHoldsLock_eq_true.mpr h2)]
  · have hup := upsertLock_all_completed now h3.1 h3.2
    have hrb : lockReadBack s j t r = false := by
      rw [lockReadBack, List.any_eq_false]
      intro a ha
      simp only [Bool.and_eq_true, beq_iff_eq, Bool.not_eq_true', not_and]
      intro hc hsome
      obtain ⟨⟨⟨hj, ht⟩, hr⟩, hcomp⟩ := hc
      exact absurd (h3.2 a ha ⟨hj, ht, hr⟩) (by simp [hcomp])
    unfold lockTeamForJudge
    rw [if_neg (Nat.not_le_of_lt h1),
        if_neg (show ¬ otherJudgeHoldsLock s j t r = true from fun hx =>
          h2 (otherJudgeHoldsLock_eq_true.mp hx)),
        if_neg (Nat.not_le_of_lt h1)]
    simp only [hup, hrb, Bool.false_eq_true, if_false]
  · have hrb := lockReadBack_upsert_success now h3
    constructor
    · unfold lockTeamForJudge
      rw [if_neg (Nat.not_le_of_lt h1),
          if_neg (show ¬ otherJudgeHoldsLock s j t r = true from fun hx =>
            h2 (otherJudgeHoldsLock_eq_true.mp hx)),
          if_neg (Nat.not_le_of_lt h1)]
      simp only [hrb, if_true]
    · rw [lockReadBack, List.any_eq_true] at hrb
      rcases hrb with ⟨a, ha, hc⟩
      simp only [Bool.and_eq_true, beq_iff_eq, Bool.not_eq_true'] at hc
      exact ⟨a, ha, hc.1.1.1.1, hc.1.1.1.2, hc.1.1.2, hc.1.2, hc.2⟩

/-- Claim C5 witness: on the empty store a lock request for
`("j1", "Team 1", round 1)` with capacity 2 passes every check and
commits the locked row. -/
theorem c5_lock_check_order_witness :
    lockTeamForJudge [] "j1" "Team 1" 1 2 7 = (.locked, upsertLock [] "j1" "Team 1" 1 7) ∧
    ∃ a ∈ upsertLock [] "j1" "Team 1" 1 7, a.judge = "j1" ∧ a.team = "Team 1" ∧
      a.round = 1 ∧ a.completed = false ∧ a.lockedAt.isSome = true :=
  ((c5_lock_check_order [] "j1" "Team 1" 1 2 7).2.2 (by decide) (by decide)).2 (by decide)

theorem attemptLock_zero (busy : Nat → Bool) (rand : Nat → ℚ) (s : Store)
    (j t : String) (r req now attempt : Nat) :
    attemptLock busy rand s j t r req now 0 attempt =
      if busy attempt then (.error "SQLITE_BUSY", [])
      else (.ok (lockTeamForJudge s j t r req now), []) := rfl

theorem attemptLock_succ (busy : Nat → Bool) (rand : Nat → ℚ) (s : Store)
    (j t : String) (r req now n attempt : Nat) :
    attemptLock busy rand s j t r req now (n + 1) attempt =
      if busy attempt then
        ((attemptLock busy rand s j t r req now n (attempt + 1)).1,
         lockBusyDelay rand attempt ::
           (attemptLock busy rand s j t r req now n (attempt + 1)).2)
      else (.ok (lockTeamForJudge s j t r req now), []) := rfl

theorem attemptLock_length_le (busy : Nat → Bool) (rand : Nat → ℚ) (s : Store)
    (j t : String) (r req now : Nat) :
    ∀ remaining attempt,
      (attemptLock busy rand s j t r req now remaining attempt).2.length ≤ remaining := by
  intro remaining
  induction remaining with
  | zero =>
    intro attempt
    rw [attemptLock_zero]
    by_cases hb : busy attempt <;> simp [hb]
  | succ n ih =>
    intro attempt
    rw [attemptLock_succ]
    by_cases hb : busy attempt
    · simp only [hb, if_true, List.length_cons]
      exact Nat.succ_le_succ (ih (attempt + 1))
    · simp [hb]

theorem attemptLock_delays_shape (busy : Nat → Bool) (rand : Nat → ℚ) (s : Store)
    (j t : String) (r req now : Nat) :
    ∀ remaining attempt,
      (attemptLock busy rand s j t r req now remaining attempt).2 =
        (List.range' attempt
          (attemptLock busy rand s j t r req now remaining attempt).2.length).map
          (lockBusyDelay rand) := by
  intro remaining
  induction remaining with
  | zero =>
    intro attempt
    rw [attemptLock_zero]
    by_cases hb : busy attempt <;> simp [hb]
  | succ n ih =>
    intro attempt
    rw [attemptLock_succ]
    by_cases hb : busy attempt
    · simp only [hb, if_true, List.length_cons, List.range'_succ, List.map_cons,
        List.cons.injEq]
      exact ⟨trivial, ih (attempt + 1)⟩
    · simp [hb]

theorem attemptLock_all_busy (busy : Nat → Bool) (rand : Nat → ℚ) (s : Store)
    (j t : String) (r req now : Nat) :
    ∀ remaining attempt, (∀ a, attempt ≤ a → a ≤ attempt + remaining → busy a = true) →
      (attemptLock busy rand s j t r req now remaining attempt).1 =
        .error "SQLITE_BUSY" := by
  intro remaining
  induction remaining with
  | zero =>
    intro attempt hb
    rw [attemptLock_zero]
    simp [hb attempt (Nat.le_refl _) (Nat.le_add_right _ _)]
  | succ n ih =>
    intro attempt hb
    rw [attemptLock_succ]
    simp only [hb attempt (Nat.le_refl _) (Nat.le_add_right _ _), if_true]
    exact ih (attempt + 1) (fun a h1 h2 => hb a (Nat.le_of_succ_le h1) (by omega))

/-- Claim C6 counterexample: when every attempt hits transient storage
contention, the retry wrapper terminates by rejecting with the raw
storage error — it does not surface the allocator's LockFailed result to
the caller as the claim states. -/
theorem c6_lockfailed_counterexample :
    (lockTeamForJudgeWithRetry (fun _ => true) (fun _ => (1:ℚ)/2)
      [] "j1" "Team 1" 1 2 0).1 = .error "SQLITE_BUSY" ∧
    (lockTeamForJudgeWithRetry (fun _ => true) (fun _ => (1:ℚ)/2)
      [] "j1" "Team 1" 1 2 0).1 ≠ .ok (LockResult.lockFailed, ([] : Store)) := by
  refine ⟨rfl, ?_⟩
  intro h
  rw [show (lockTeamForJudgeWithRetry (fun _ => true) (fun _ => (1:ℚ)/2)
      [] "j1" "Team 1" 1 2 0).1 = .error "SQLITE_BUSY" from rfl] at h
  cases h

/-- Claim C6 (amended): the lock-acquisition wrapper retries transient
contention at most 10 times (at most 10 backoff delays are slept), the
delay after busy attempt `k` is the jittered exponential backoff
`random factor × base delay 50 × attempt number (k + 1)`, and the
operation always terminates — but when the retry budget is exhausted it
surfaces the underlying storage error (a rejected promise, which the web
layer maps to a generic failure) rather than the allocator's LockFailed
result. -/
theorem c6_retry_bounded_backoff (busy : Nat → Bool) (rand : Nat → ℚ)
    (s : Store) (j t : String) (r req now : Nat) :
    (lockTeamForJudgeWithRetry busy rand s j t r req now).2.length ≤ 10 ∧
    (lockTeamForJudgeWithRetry busy rand s j t r req now).2 =
      (List.range (lockTeamForJudgeWithRetry busy rand s j t r req now).2.length).map
        (fun k => rand k * 50 * (k + 1)) ∧
    ((∀ a, a ≤ 10 → busy a = true) →
      (lockTeamForJudgeWithRetry busy rand s j t r req now).1 =
        .error "SQLITE_BUSY") := by
  refine ⟨attemptLock_length_le busy rand s j t r req now 10 0, ?_, fun hb => ?_⟩
  · have h := attemptLock_delays_shape busy rand s j t r req now 10 0
    rw [List.range_eq_range']
    have he : lockBusyDelay rand = fun k : Nat => rand k * 50 * (k + 1) := rfl
    rw [← he]
    exact h
  · exact attemptLock_all_busy busy rand s j t r req now 10 0
      (fun a _ h2 => hb a (by omega))

theorem c6_retry_bounded_backoff_witness :
    (lockTeamForJudgeWithRetry (fun _ => true) (fun _ => (2:ℚ)/3)
      [] "j2" "Team 2" 1 2 0).1 = .error "SQLITE_BUSY" :=
  (c6_retry_bounded_backoff (fun _ => true) (fun _ => (2:ℚ)/3)
    [] "j2" "Team 2" 1 2 0).2.2 (fun _ _ => rfl)


theorem eligibleP_iff {s : Store} {j : String} {r req : Nat} {t : Team} :
    EligibleP s j r req t ↔ eligibleTeam s j r req t = true := by
  unfold EligibleP eligibleTeam
  simp only [Bool.and_eq_true, Bool.not_eq_true', decide_eq_true_eq]
  constructor
  · rintro ⟨h1, h2, h3⟩
    refine ⟨⟨?_, ?_⟩, h3⟩
    · by_cases hc : (judgedTeamNames s j).contains t.name = true
      · rw [List.contains_eq_any_beq, List.any_eq_true] at hc
        rcases hc with ⟨x, hx, hbeq⟩
        rw [beq_iff_eq] at hbeq
        rcases mem_judgedTeamNames.mp hx with ⟨a, ha, hj, ht⟩
        exact absurd ⟨hj, hbeq ▸ ht⟩ (h1 a ha)
      · exact Bool.eq_false_iff.mpr hc
    · rw [alreadyAssignedInRound, List.any_eq_false]
      intro a ha
      simp only [Bool.and_eq_true, beq_iff_eq, not_and]
      intro hj hr
      exact h2 a ha ⟨hj.1, hj.2, hr⟩
  · rintro ⟨⟨h1, h2⟩, h3⟩
    refine ⟨?_, ?_, h3⟩
    · intro a ha hc
      have : t.name ∈ judgedTeamNames s j := mem_judgedTeamNames.mpr ⟨a, ha, hc.1, hc.2⟩
      have := List.elem_eq_true_of_mem this
      rw [List.contains] at h1
      rw [this] at h1
      cases h1
    · intro a ha hc
      rw [alreadyAssignedInRound, List.any_eq_false] at h2
      exact h2 a ha (by simp [hc.1, hc.2.1, hc.2.2])

theorem teamLE_antisymm_name {a b : TeamInfo} (h1 : teamLE a b) (h2 : teamLE b a) :
    a.name = b.name := by
  rcases h1 with h1 | ⟨h1, h1'⟩ <;> rcases h2 with h2 | ⟨h2, h2'⟩
  · exact absurd h2 (Nat.lt_asymm h1)
  · exact absurd h1 (h2 ▸ Nat.lt_irrefl _)
  · exact absurd h2 (h1 ▸ Nat.lt_irrefl _)
  · exact strLe_antisymm h1' h2'

/-- Claim C3: for every judge, round, team list (with distinct names)
and assignment history, `getNextTeamForJudge` returns `none` exactly when
no team survives the filters (never judged by this judge in any round,
not assigned to the judge in the current round, current-round count below
required-judges-per-team), and otherwise returns the unique surviving
team minimal by (current-round judge count, then lexical team name),
without raising an error (the selector is a total function). -/
theorem c3_selector_minimal (teams : List Team) (s : Store) (j : String)
    (r req : Nat) (hnd : (teams.map Team.name).Nodup) :
    ((∀ t ∈ teams, ¬ EligibleP s j r req t) →
        getNextTeamForJudge teams s j r req = none) ∧
    (∀ t0 ∈ teams, EligibleP s j r req t0 →
      ∃ t ∈ teams, EligibleP s j r req t ∧
        getNextTeamForJudge teams s j r req = some (mkTeamInfo s r t) ∧
        (∀ u ∈ teams, EligibleP s j r req u →
          teamLE (mkTeamInfo s r t) (mkTeamInfo s r u)) ∧
        (∀ u ∈ teams, EligibleP s j r req u → u.name ≠ t.name →
          ¬ teamLE (mkTeamInfo s r u) (mkTeamInfo s r t))) := by
  constructor
  · intro hnone
    have hfil : teams.filter (eligibleTeam s j r req) = [] := by
      rw [List.filter_eq_nil_iff]
      intro t ht
      exact fun he => hnone t ht (eligibleP_iff.mpr he)
    unfold getNextTeamForJudge
    rw [hfil]
    rfl
  · intro t0 ht0 he0
    have hmemL : mkTeamInfo s r t0 ∈
        (teams.filter (eligibleTeam s j r req)).map (mkTeamInfo s r) :=
      List.mem_map.mpr ⟨t0, List.mem_filter.mpr ⟨ht0, eligibleP_iff.mp he0⟩, rfl⟩
    set L := (teams.filter (eligibleTeam s j r req)).map (mkTeamInfo s r) with hL
    haveI : IsTotal TeamInfo teamLE := ⟨teamLE_total⟩
    haveI : IsTrans TeamInfo teamLE := ⟨fun _ _ _ => teamLE_trans⟩
    have hsorted := List.sorted_insertionSort teamLE L
    have hperm := List.perm_insertionSort teamLE L
    cases hsort : List.insertionSort teamLE L with
    | nil =>
      rw [hsort] at hperm
      exact absurd (hperm.symm.mem_iff.mp hmemL) (List.not_mem_nil _)
    | cons ti rest =>
      have hti_mem : ti ∈ L := by
        rw [← List.mem_insertionSort (r := teamLE), hsort]
        exact List.mem_cons_self _ _
      rcases List.mem_map.mp hti_mem with ⟨t, htf, hteq⟩
      rcases List.mem_filter.mp htf with ⟨htm, helig⟩
      have hmin : ∀ v ∈ L, teamLE ti v := by
        intro v hv
        have hv' : v ∈ ti :: rest := by
          rw [← hsort]
          exact (List.mem_insertionSort (r := teamLE)).mpr hv
        rcases List.mem_cons.mp hv' with hv1 | hv2
        · rw [hv1]
          exact teamLE_refl _
        · rw [hsort] at hsorted
          exact List.rel_of_sorted_cons hsorted v hv2
      refine ⟨t, htm, eligibleP_iff.mpr helig, ?_, ?_, ?_⟩
      · unfold getNextTeamForJudge
        rw [← hL, hsort, hteq]
        rfl
      · intro u hu heu
        have : mkTeamInfo s r u ∈ L :=
          List.mem_map.mpr ⟨u, List.mem_filter.mpr ⟨hu, eligibleP_iff.mp heu⟩, rfl⟩
        rw [hteq]
        exact hmin _ this
      · intro u hu heu hne hle
        have : mkTeamInfo s r u ∈ L :=
          List.mem_map.mpr ⟨u, List.mem_filter.mpr ⟨hu, eligibleP_iff.mp heu⟩, rfl⟩
        have hge := hmin _ this
        rw [← hteq] at hge
        exact hne (teamLE_antisymm_name hle hge)



/-- Claim C3 witness: with two teams of which the judge has already
judged "Team 1", the selector picks the unique eligible minimal team. -/
theorem c3_selector_minimal_witness :
    ∃ t ∈ [wTeamA, wTeamB], EligibleP wStore "j1" 1 2 t ∧
      getNextTeamForJudge [wTeamA, wTeamB] wStore "j1" 1 2 =
        some (mkTeamInfo wStore 1 t) ∧
      (∀ u ∈ [wTeamA, wTeamB], EligibleP wStore "j1" 1 2 u →
        teamLE (mkTeamInfo wStore 1 t) (mkTeamInfo wStore 1 u)) ∧
      (∀ u ∈ [wTeamA, wTeamB], EligibleP wStore "j1" 1 2 u → u.name ≠ t.name →
        ¬ teamLE (mkTeamInfo wStore 1 u) (mkTeamInfo wStore 1 t)) :=
  (c3_selector_minimal [wTeamA, wTeamB] wStore "j1" 1 2 (by decide)).2
    wTeamB (by decide) (by decide)


theorem iterateRequests_zero (teams : List Team) (req : Nat) (j : String)
    (r : Nat) (s : Store) : iterateRequests teams req j r 0 s = ([], s) := rfl

theorem iterateRequests_succ (teams : List Team) (req : Nat) (j : String)
    (r n : Nat) (s : Store) :
    iterateRequests teams req j r (n + 1) s =
      ((requestNextTeam teams s j r req).1 ::
        (iterateRequests teams req j r n (requestNextTeam teams s j r req).2).1,
       (iterateRequests teams req j r n (requestNextTeam teams s j r req).2).2) := rfl

theorem rowsOf_append (j : String) (r : Nat) (ts us : List Team) :
    rowsOf j r (ts ++ us) = rowsOf j r ts ++ rowsOf j r us := by
  simp [rowsOf]

theorem mem_rowsOf {j : String} {r : Nat} {ts : List Team} {a : Assignment} :
    a ∈ rowsOf j r ts ↔ ∃ t ∈ ts, a = rowOf j r t := by
  simp only [rowsOf, List.mem_map]
  constructor
  · rintro ⟨t, ht, rfl⟩
    exact ⟨t, ht, rfl⟩
  · rintro ⟨t, ht, rfl⟩
    exact ⟨t, ht, rfl⟩

theorem roundRowCount_rowsOf_notmem {j : String} {r : Nat} {ts : List Team}
    {u : String} (h : u ∉ ts.map Team.name) (r' : Nat) :
    roundRowCount (rowsOf j r ts) u r' = 0 := by
  rw [roundRowCount, List.length_eq_zero, List.filter_eq_nil_iff]
  intro a ha
  rcases mem_rowsOf.mp ha with ⟨t, ht, rfl⟩
  simp only [Bool.and_eq_true, beq_iff_eq, not_and]
  intro hteam
  exact absurd (hteam ▸ List.mem_map.mpr ⟨t, ht, rfl⟩) h

theorem hasJudgedTeam_rowsOf {j : String} {r : Nat} {ts : List Team} {u : String} :
    hasJudgedTeam (rowsOf j r ts) j u = true ↔ u ∈ ts.map Team.name := by
  rw [hasJudgedTeam, List.any_eq_true]
  constructor
  · rintro ⟨a, ha, hc⟩
    rcases mem_rowsOf.mp ha with ⟨t, ht, rfl⟩
    simp only [Bool.and_eq_true, beq_iff_eq] at hc
    exact hc.2 ▸ List.mem_map.mpr ⟨t, ht, rfl⟩
  · intro hm
    rcases List.mem_map.mp hm with ⟨t, ht, rfl⟩
    exact ⟨_, List.mem_map.mpr ⟨t, ht, rfl⟩, by simp [rowOf]⟩

theorem judgedTeamNames_rowsOf_mem {j : String} {r : Nat} {ts : List Team}
    {u : String} : u ∈ judgedTeamNames (rowsOf j r ts) j ↔ u ∈ ts.map Team.name := by
  rw [mem_judgedTeamNames]
  constructor
  · rintro ⟨a, ha, hj, hteam⟩
    rcases mem_rowsOf.mp ha with ⟨t, ht, rfl⟩
    exact hteam ▸ List.mem_map.mpr ⟨t, ht, rfl⟩
  · intro hm
    rcases List.mem_map.mp hm with ⟨t, ht, rfl⟩
    exact ⟨_, List.mem_map.mpr ⟨t, ht, rfl⟩, rfl, rfl⟩

theorem dedup_length_le_one_of_all_eq {l : List String} {c : String}
    (h : ∀ x ∈ l, x = c) : l.dedup.length ≤ 1 := by
  induction l with
  | nil => simp
  | cons a l ih =>
    by_cases hm : a ∈ l
    · rw [List.dedup_cons_of_mem hm]
      exact ih (fun x hx => h x (List.mem_cons_of_mem _ hx))
    · have ha : a = c := h a (List.mem_cons_self _ _)
      have hl : l = [] := by
        cases l with
        | nil => rfl
        | cons b l' =>
          exact absurd ((h b (by simp)).trans ha.symm ▸ List.mem_cons_self b l' :
            a ∈ b :: l') hm
      subst hl
      simp

theorem distinctJudgeCount_rowsOf_le {j : String} {r : Nat} {ts : List Team}
    (u : String) (r' : Nat) : distinctJudgeCount (rowsOf j r ts) u r' ≤ 1 := by
  apply dedup_length_le_one_of_all_eq
  intro x hx
  rcases List.mem_map.mp hx with ⟨a, ha, rfl⟩
  rcases mem_rowsOf.mp (List.mem_filter.mp ha).1 with ⟨t, ht, rfl⟩
  rfl


theorem eligibleTeam_rowsOf_of_mem {j : String} {r : Nat} {ts : List Team}
    {u : Team} (hm : u.name ∈ ts.map Team.name) (req : Nat) :
    eligibleTeam (rowsOf j r ts) j r req u = false := by
  unfold eligibleTeam
  have hc : (judgedTeamNames (rowsOf j r ts) j).contains u.name = true :=
    List.elem_eq_true_of_mem (judgedTeamNames_rowsOf_mem.mpr hm)
  rw [hc]
  rfl

theorem eligibleTeam_rowsOf_of_not_mem {j : String} {r : Nat} {ts : List Team}
    {u : Team} (hm : u.name ∉ ts.map Team.name) :
    eligibleTeam (rowsOf j r ts) j r 2 u = true := by
  unfold eligibleTeam
  have h1 : (judgedTeamNames (rowsOf j r ts) j).contains u.name = false := by
    cases hb : (judgedTeamNames (rowsOf j r ts) j).contains u.name with
    | false => rfl
    | true =>
      exact absurd (judgedTeamNames_rowsOf_mem.mp (List.mem_of_elem_eq_true hb)) hm
  have h2 : alreadyAssignedInRound (rowsOf j r ts) j u.name r = false := by
    rw [alreadyAssignedInRound, List.any_eq_false]
    intro a ha
    rcases mem_rowsOf.mp ha with ⟨t', ht', rfl⟩
    have hne : t'.name ≠ u.name := fun h => hm (h ▸ List.mem_map.mpr ⟨t', ht', rfl⟩)
    simp [rowOf, hne]
  have h3 : roundRowCount (rowsOf j r ts) u.name r = 0 :=
    roundRowCount_rowsOf_notmem hm r
  simp only [h1, h2, h3]
  rfl

theorem request_step (j : String) (r : Nat) (pre : List Team) (t : Team)
    (post : List Team)
    (hp : List.Pairwise strLtP ((pre ++ t :: post).map Team.name)) :
    requestNextTeam (pre ++ t :: post) (rowsOf j r pre) j r 2 =
      (.assigned (infoOf t), rowsOf j r (pre ++ [t])) := by
  have hnd : ((pre ++ t :: post).map Team.name).Nodup :=
    hp.imp (fun h => h.2)
  rw [List.map_append] at hnd
  have hdisj : (pre.map Team.name).Disjoint ((t :: post).map Team.name) :=
    (List.nodup_append.mp hnd).2.2
  have hnotpre : ∀ u ∈ t :: post, u.name ∉ pre.map Team.name := by
    intro u hu hin
    exact hdisj hin (List.mem_map.mpr ⟨u, hu, rfl⟩)
  have hfil : (pre ++ t :: post).filter (eligibleTeam (rowsOf j r pre) j r 2) =
      t :: post := by
    rw [List.filter_append]
    have h1 : pre.filter (eligibleTeam (rowsOf j r pre) j r 2) = [] := by
      rw [List.filter_eq_nil_iff]
      intro u hu
      rw [eligibleTeam_rowsOf_of_mem (List.mem_map.mpr ⟨u, hu, rfl⟩) 2]
      simp
    have h2 : (t :: post).filter (eligibleTeam (rowsOf j r pre) j r 2) = t :: post := by
      rw [List.filter_eq_self]
      intro u hu
      rw [eligibleTeam_rowsOf_of_not_mem (hnotpre u hu)]
    rw [h1, h2, List.nil_append]
  have hmap : (t :: post).map (mkTeamInfo (rowsOf j r pre) r) =
      (t :: post).map infoOf := by
    apply List.map_congr_left
    intro u hu
    unfold mkTeamInfo infoOf
    rw [roundRowCount_rowsOf_notmem (hnotpre u hu) r]
  have hsortedL : List.Sorted teamLE ((t :: post).map infoOf) := by
    rw [List.Sorted, List.pairwise_map]
    have hpost : List.Pairwise strLtP ((t :: post).map Team.name) := by
      rw [List.map_append] at hp
      exact (List.pairwise_append.mp hp).2.1
    rw [List.pairwise_map] at hpost
    exact hpost.imp (fun h => Or.inr ⟨rfl, h.1⟩)
  have hsel : getNextTeamForJudge (pre ++ t :: post) (rowsOf j r pre) j r 2 =
      some (infoOf t) := by
    unfold getNextTeamForJudge
    rw [hfil, hmap, List.Sorted.insertionSort_eq hsortedL]
    rfl
  have hjudged : hasJudgedTeam (rowsOf j r pre) j (infoOf t).name = false := by
    cases hb : hasJudgedTeam (rowsOf j r pre) j (infoOf t).name with
    | false => rfl
    | true =>
      exact absurd (hasJudgedTeam_rowsOf.mp hb) (hnotpre t (List.mem_cons_self _ _))
  have hany : (rowsOf j r pre).any
      (fun a => a.judge == j && a.team == (infoOf t).name && a.round == r) = false := by
    rw [List.any_eq_false]
    intro a ha
    rcases mem_rowsOf.mp ha with ⟨t', ht', rfl⟩
    have hne : t'.name ≠ t.name := fun h =>
      (hnotpre t (List.mem_cons_self _ _)) (h ▸ List.mem_map.mpr ⟨t', ht', rfl⟩)
    simp [rowOf, infoOf, hne]
  rw [requestNextTeam, hsel]
  simp only [finalizeAssignment, hjudged, Bool.false_eq_true, if_false,
    assignJudgeToTeam, hany]
  rw [rowsOf_append]
  rfl

theorem iterate_assigns (j : String) (r : Nat) :
    ∀ (post pre : List Team),
      List.Pairwise strLtP ((pre ++ post).map Team.name) →
      iterateRequests (pre ++ post) 2 j r post.length (rowsOf j r pre) =
        (post.map (fun t => .assigned (infoOf t)), rowsOf j r (pre ++ post)) := by
  intro post
  induction post with
  | nil =>
    intro pre hp
    rw [List.length_nil, iterateRequests_zero, List.append_nil]
    rfl
  | cons t post ih =>
    intro pre hp
    rw [List.length_cons, iterateRequests_succ, request_step j r pre t post hp]
    have hp' : List.Pairwise strLtP (((pre ++ [t]) ++ post).map Team.name) := by
      rw [List.append_assoc, List.singleton_append]
      exact hp
    have := ih (pre ++ [t]) hp'
    rw [List.append_assoc, List.singleton_append] at this
    rw [this]
    rfl

theorem request_after_all (j : String) (r : Nat) (teams : List Team)
    (hp : List.Pairwise strLtP (teams.map Team.name)) (hne : teams ≠ []) :
    requestNextTeam teams (rowsOf j r teams) j r 2 =
      (.noMoreForYou, rowsOf j r teams) := by
  have hsel : getNextTeamForJudge teams (rowsOf j r teams) j r 2 = none := by
    have hfil : teams.filter (eligibleTeam (rowsOf j r teams) j r 2) = [] := by
      rw [List.filter_eq_nil_iff]
      intro u hu
      rw [eligibleTeam_rowsOf_of_mem (List.mem_map.mpr ⟨u, hu, rfl⟩) 2]
      simp
    unfold getNextTeamForJudge
    rw [hfil]
    rfl
  have hall : allTeamsComplete teams (rowsOf j r teams) r 2 = false := by
    cases teams with
    | nil => exact absurd rfl hne
    | cons t rest =>
      rw [allTeamsComplete]
      rw [List.all_eq_false]
      refine ⟨t, List.mem_cons_self _ _, ?_⟩
      have := @distinctJudgeCount_rowsOf_le j r (t :: rest) t.name r
      simp only [decide_eq_true_eq]
      omega
  rw [requestNextTeam, hsel, hall]
  rfl

theorem iterateRequests_add (teams : List Team) (req : Nat) (j : String) (r : Nat) :
    ∀ n m (s : Store),
      iterateRequests teams req j r (n + m) s =
        ((iterateRequests teams req j r n s).1 ++
          (iterateRequests teams req j r m (iterateRequests teams req j r n s).2).1,
         (iterateRequests teams req j r m (iterateRequests teams req j r n s).2).2) := by
  intro n
  induction n with
  | zero =>
    intro m s
    rw [Nat.zero_add]
    rfl
  | succ n ih =>
    intro m s
    rw [Nat.succ_add, iterateRequests_succ, iterateRequests_succ teams req j r n,
      ih m (requestNextTeam teams s j r req).2]
    rfl

/-- Claim C9 counterexample: with exactly one judge, one team and the
default required-judges-per-team of 2, the request immediately after the
judge's single (N-th) assignment returns `noMoreForYou`, not
`allTeamsComplete` as the claim states. -/
theorem c9_counterexample :
    (iterateRequests [wTeamA] 2 "j1" 1 2 []).1 =
      [.assigned (infoOf wTeamA), .noMoreForYou] ∧
    (iterateRequests [wTeamA] 2 "j1" 1 2 []).1 ≠
      [.assigned (infoOf wTeamA), .allTeamsComplete] := by
  exact ⟨by decide, by decide⟩

/-- Claim C9 (amended): with exactly one judge and a nonempty list of N
teams (names distinct and sorted, as the registry query provides) and the
default required-judges-per-team of 2, repeated `/next-team` requests
assign the judge every team exactly once, in deterministic (name) order,
and the request immediately after the N-th assignment returns
`noMoreForYou` — not `allTeamsComplete`, since each team still lacks its
second judge. -/
theorem c9_single_judge_sequence (j : String) (r : Nat) (teams : List Team)
    (hp : List.Pairwise strLtP (teams.map Team.name)) (hne : teams ≠ []) :
    iterateRequests teams 2 j r (teams.length + 1) [] =
      (teams.map (fun t => .assigned (infoOf t)) ++ [.noMoreForYou],
       rowsOf j r teams) := by
  have h0 : rowsOf j r [] = [] := rfl
  have h1 := iterate_assigns j r teams []
  rw [List.nil_append, h0] at h1
  have h1' := h1 hp
  rw [iterateRequests_add teams 2 j r teams.length 1 [], h1']
  have h2 := request_after_all j r teams hp hne
  rw [iterateRequests_succ, h2]
  rfl

theorem c9_single_judge_sequence_witness :
    iterateRequests [wTeamA, wTeamB] 2 "j1" 1 3 [] =
      ([.assigned (infoOf wTeamA), .assigned (infoOf wTeamB), .noMoreForYou],
       rowsOf "j1" 1 [wTeamA, wTeamB]) :=
  c9_single_judge_sequence "j1" 1 [wTeamA, wTeamB] (by decide) (by decide)
